import Mathlib

/-!
Verification of the MangaBuff trading bot core: a shallow embedding of the
replacement policy (`card_replacement.py`), the two-phase item selector
(`card_selector.py`) and the orchestration cycle of `run_processing_mode`
(`main.py`).  Network calls (demand probes, quota checks, the replacement
request, the monitor flags) are modelled as explicit oracle environments;
Python dicts keyed by `str(card_id)` become association lists keyed by `Nat`,
and the in-place `random.shuffle` is modelled by taking the candidate list in
its post-shuffle probe order.
-/

namespace MangaBuff

/-- A raw inventory card as produced by `extract_card_data` (the extraction
itself always succeeds in the model; extraction failures are subsumed by
probe failures, which exercise the same skip path). -/
structure RawCard where
  instance_id : Nat
  card_id : Nat
  rank : String
deriving DecidableEq

/-- A parsed/cached demand record, the dict stored in `parsed_inventory`. -/
structure ParsedCard where
  card_id : Nat
  rank : String
  wanters_count : Int
  instance_id : Nat
deriving DecidableEq

/-- The current boost card record (`boost_card` dict) restricted to the
fields the replacement policy and the loop read. -/
structure BoostCard where
  card_id : Nat
  owners_count : Int
  wanters_count : Int
deriving DecidableEq

/-! ## Replacement policy (`card_replacement.py`) -/

/-- `CardReplacementManager.should_replace_card`, as the pure function of the
two counts it reads from the boost card dict. -/
def should_replace (owners_count wanters_count : Int) : Bool :=
  if owners_count ≤ 0 then false
  else if 0 < owners_count ∧ owners_count ≤ 108 then true
  else if 109 ≤ owners_count ∧ owners_count ≤ 216 then decide (121 ≤ wanters_count)
  else if 217 ≤ owners_count ∧ owners_count ≤ 360 then decide (181 ≤ wanters_count)
  else if 361 ≤ owners_count ∧ owners_count ≤ 540 then decide (300 ≤ wanters_count)
  else false

/-- Oracle outcomes of the external calls made while replacing a card:
the two `stats_manager.can_replace(force_refresh=True)` checks, the
`replace_club_card` POST, and the reloaded `get_boost_card_info`. -/
structure ReplEnv where
  canReplace1 : Bool
  canReplace2 : Bool
  replaceOk : Bool
  newCard : Option BoostCard

/-- Shared tail of `force_replace_card` and `perform_replacement`: cancel
outstanding trades, re-check the quota, send the replacement, reload the
boost card and verify that its identity changed. -/
def replace_core (env : ReplEnv) (old_card_id : Nat) : Option BoostCard :=
  if ¬ env.canReplace2 then none
  else if ¬ env.replaceOk then none
  else
    match env.newCard with
    | none => none
    | some nc => if nc.card_id ≠ old_card_id then some nc else none

/-- `CardReplacementManager.force_replace_card`: replacement without the
policy check, gated only by the daily quota. -/
def force_replace_card (env : ReplEnv) (boost : BoostCard) : Option BoostCard :=
  if ¬ env.canReplace1 then none
  else replace_core env boost.card_id

/-- `CardReplacementManager.perform_replacement`: policy check, quota check,
then the shared replacement mechanics. -/
def perform_replacement (env : ReplEnv) (boost : BoostCard) : Option BoostCard :=
  if ¬ should_replace boost.owners_count boost.wanters_count then none
  else if ¬ env.canReplace1 then none
  else replace_core env boost.card_id

/-! ## Claim C1: the replacement decision table -/

/-- C1: `should_replace` returns true exactly on the four owner-count bands
of the table (1-108 unconditionally; 109-216 with demand ≥ 121; 217-360 with
demand ≥ 181; 361-540 with demand ≥ 300), and returns false whenever
`owners_count ≤ 0` or `owners_count > 540`; being a Lean function of the two
arguments it is pure, and the equivalence covers every boundary pair. -/
theorem should_replace_table (o w : Int) :
    (should_replace o w = true ↔
      (1 ≤ o ∧ o ≤ 108) ∨
      (109 ≤ o ∧ o ≤ 216 ∧ 121 ≤ w) ∨
      (217 ≤ o ∧ o ≤ 360 ∧ 181 ≤ w) ∨
      (361 ≤ o ∧ o ≤ 540 ∧ 300 ≤ w)) ∧
    ((o ≤ 0 ∨ 540 < o) → should_replace o w = false) := by
  unfold should_replace
  constructor
  · split_ifs <;> simp_all <;> omega
  · intro h
    split_ifs <;> simp_all <;> omega

theorem should_replace_table_witness :
    should_replace 541 1000 = false ∧
    should_replace 108 0 = true ∧
    should_replace 109 120 = false := by
  refine ⟨(should_replace_table 541 1000).2 (by decide), ?_, ?_⟩
  · exact ((should_replace_table 108 0).1).2 (Or.inl (by decide))
  · by_contra h
    rcases ((should_replace_table 109 120).1).1 (by simpa using h) with h1 | h1 | h1 | h1 <;>
      omega

/-! ## Claim C2: a successful replacement changes the card identity -/

/-- C2: whenever `perform_replacement` or `force_replace_card` returns a new
card, its `card_id` differs from the input card's; and if the reloaded card
has the same `card_id`, both report failure (`none`), never success. -/
theorem replacement_changes_identity (env : ReplEnv) (b : BoostCard) :
    (∀ nc, perform_replacement env b = some nc → nc.card_id ≠ b.card_id) ∧
    (∀ nc, force_replace_card env b = some nc → nc.card_id ≠ b.card_id) ∧
    (∀ m, env.newCard = some m → m.card_id = b.card_id →
      perform_replacement env b = none ∧ force_replace_card env b = none) := by
  unfold perform_replacement force_replace_card replace_core
  refine ⟨?_, ?_, ?_⟩
  · intro nc h
    split_ifs at h <;> simp_all
    rcases henv : env.newCard with _ | m <;> rw [henv] at h <;> simp_all
    rcases h with ⟨h1, rfl⟩
    exact h1
  · intro nc h
    split_ifs at h <;> simp_all
    rcases henv : env.newCard with _ | m <;> rw [henv] at h <;> simp_all
    rcases h with ⟨h1, rfl⟩
    exact h1
  · intro m hm hid
    constructor <;> (split_ifs <;> simp_all)

theorem replacement_changes_identity_witness :
    perform_replacement ⟨true, true, true, some ⟨7, 400, 50⟩⟩ ⟨7, 100, 0⟩ = none ∧
    force_replace_card ⟨true, true, true, some ⟨7, 400, 50⟩⟩ ⟨7, 100, 0⟩ = none :=
  (replacement_changes_identity ⟨true, true, true, some ⟨7, 400, 50⟩⟩ ⟨7, 100, 0⟩).2.2
    ⟨7, 400, 50⟩ rfl rfl

/-! ## Selection engine (`card_selector.py`) -/

/-- `LOW_WANTERS_THRESHOLD` from `card_selector.py`. -/
def LOW_WANTERS_THRESHOLD : Int := 5

/-- `normalize_wanters`: demands at or below the low-demand threshold are
collapsed to `0`. -/
def normalize_wanters (wanters_count : Int) : Int :=
  if wanters_count ≤ LOW_WANTERS_THRESHOLD then 0 else wanters_count

/-- `CardSelector.is_card_available`: an instance is available iff it is in
neither `locked_cards` nor `used_cards`. -/
def is_card_available (locked used : List Nat) (instance_id : Nat) : Bool :=
  if locked.contains instance_id then false
  else if used.contains instance_id then false
  else true

/-- The `parsed_inventory` dict, keyed by `str(card_id)`, as an association
list in insertion order. -/
abbrev PInv := List (Nat × ParsedCard)

/-- Dict lookup `parsed_inventory[card_id_str]`. -/
def pLookup : PInv → Nat → Option ParsedCard
  | [], _ => none
  | (k, v) :: rest, key => if k = key then some v else pLookup rest key

/-- Dict assignment `parsed_inventory[card_id_str] = card`: update in place
if the key exists, append otherwise (Python dicts keep insertion order). -/
def pStore : PInv → Nat → ParsedCard → PInv
  | [], key, v => [(key, v)]
  | (k, w) :: rest, key, v =>
      if k = key then (key, v) :: rest else (k, w) :: pStore rest key v

/-- Oracles for the selector's external calls: the live demand probe
`count_wants` (negative result means failure, as in the source) and the
freshness test `is_cache_valid` on a cached entry. -/
structure ProbeEnv where
  count_wants : Nat → Int
  cache_valid : ParsedCard → Bool

/-- Observable actions of the unprobed-first search: removal of a raw card
from the persisted inventory (`inventory_manager.remove_card`) and a live
demand probe for a card. -/
inductive Ev where
  | remove (c : RawCard)
  | probe (c : RawCard)
deriving DecidableEq

/-- Result of one `parse_and_cache_card` call: the parsed record (if any),
the updated cache, and the probe events it performed. -/
structure PRes where
  res : Option ParsedCard
  inv : PInv
  evs : List Ev
deriving DecidableEq

/-- The live-probe tail of `parse_and_cache_card`: call `count_wants`, drop
the card on failure or when the demand exceeds the hard ceiling, otherwise
build the parsed record and store it in the cache. -/
def probeCard (env : ProbeEnv) (maxAllowed : Int) (card : RawCard)
    (inv : PInv) : PRes :=
  let w := env.count_wants card.card_id
  if w < 0 then ⟨none, inv, [Ev.probe card]⟩
  else if maxAllowed < w then ⟨none, inv, [Ev.probe card]⟩
  else
    let pc : ParsedCard := ⟨card.card_id, card.rank, w, card.instance_id⟩
    ⟨some pc, pStore inv card.card_id pc, [Ev.probe card]⟩

/-- `CardSelector.parse_and_cache_card`: reject unavailable instances, serve
a still-valid cache entry (rebinding its `instance_id` to this physical
instance, as the in-place dict mutation does), otherwise run a live probe. -/
def parse_and_cache_card (env : ProbeEnv) (locked used : List Nat)
    (maxAllowed : Int) (card : RawCard) (inv : PInv) : PRes :=
  if ¬ is_card_available locked used card.instance_id then ⟨none, inv, []⟩
  else
    match pLookup inv card.card_id with
    | some cached =>
        if env.cache_valid cached then
          let pc := { cached with instance_id := card.instance_id }
          ⟨some pc, pStore inv card.card_id pc, []⟩
        else probeCard env maxAllowed card inv
    | none => probeCard env maxAllowed card inv

/-- `CardSelector.filter_cards_by_rank`. -/
def filter_cards_by_rank (locked used : List Nat) (inventory : List RawCard)
    (target_rank : String) : List RawCard :=
  inventory.filter fun c =>
    c.rank == target_rank && is_card_available locked used c.instance_id

/-- The best-alternative update of the bounded loop of
`select_from_unparsed`: keep the smallest demand strictly above the raw
target. -/
def updateBestAlt (target : Int) (best : Option ParsedCard)
    (pc : ParsedCard) : Option ParsedCard :=
  if target < pc.wanters_count then
    match best with
    | none => some pc
    | some b => if pc.wanters_count < b.wanters_count then some pc else some b
  else best

/-- Result of the unprobed-first phase: the selected card (if any), the
mutated cache, and the trace of removals and probes in execution order. -/
structure URes where
  result : Option ParsedCard
  inv : PInv
  trace : List Ev
deriving DecidableEq

/-- The unbounded continuation loop of `select_from_unparsed` (entered when
the attempt budget ran out but an alternative exists): keep probing the
remaining cards, return the first qualifying hit, otherwise refine the best
alternative. -/
def unparsedPhase2 (env : ProbeEnv) (locked used : List Nat)
    (maxAllowed ntarget target : Int) :
    List RawCard → PInv → ParsedCard → URes
  | [], inv, best => ⟨some best, inv, []⟩
  | c :: rest, inv, best =>
      let r := parse_and_cache_card env locked used maxAllowed c inv
      match r.res with
      | none =>
          let u := unparsedPhase2 env locked used maxAllowed ntarget target rest r.inv best
          ⟨u.result, u.inv, Ev.remove c :: (r.evs ++ u.trace)⟩
      | some pc =>
          if normalize_wanters pc.wanters_count ≤ ntarget then
            ⟨some pc, r.inv, Ev.remove c :: r.evs⟩
          else
            let best1 :=
              if target < pc.wanters_count ∧ pc.wanters_count < best.wanters_count
              then pc else best
            let u := unparsedPhase2 env locked used maxAllowed ntarget target rest r.inv best1
            ⟨u.result, u.inv, Ev.remove c :: (r.evs ++ u.trace)⟩

/-- End of the bounded loop of `select_from_unparsed`: if candidates remain
and an alternative was found, continue unbounded; otherwise return the best
alternative (possibly `none`). -/
def unparsedFinish (env : ProbeEnv) (locked used : List Nat)
    (maxAllowed ntarget target : Int) :
    List RawCard → PInv → Option ParsedCard → URes
  | c :: rest, inv, some best =>
      unparsedPhase2 env locked used maxAllowed ntarget target (c :: rest) inv best
  | _, inv, none => ⟨none, inv, []⟩
  | [], inv, some best => ⟨some best, inv, []⟩

/-- The bounded loop of `select_from_unparsed` (`cards_checked <
max_attempts`): pop a card, remove it from the persisted inventory, parse
it; return immediately on a qualifying normalized demand, else track the
best alternative. -/
def unparsedPhase1 (env : ProbeEnv) (locked used : List Nat)
    (maxAllowed ntarget target : Int) :
    Nat → List RawCard → PInv → Option ParsedCard → URes
  | 0, cards, inv, best =>
      unparsedFinish env locked used maxAllowed ntarget target cards inv best
  | _ + 1, [], inv, best =>
      unparsedFinish env locked used maxAllowed ntarget target [] inv best
  | n + 1, c :: rest, inv, best =>
      let r := parse_and_cache_card env locked used maxAllowed c inv
      match r.res with
      | none =>
          let u := unparsedPhase1 env locked used maxAllowed ntarget target n rest r.inv best
          ⟨u.result, u.inv, Ev.remove c :: (r.evs ++ u.trace)⟩
      | some pc =>
          if normalize_wanters pc.wanters_count ≤ ntarget then
            ⟨some pc, r.inv, Ev.remove c :: r.evs⟩
          else
            let u := unparsedPhase1 env locked used maxAllowed ntarget target n rest r.inv
              (updateBestAlt target best pc)
            ⟨u.result, u.inv, Ev.remove c :: (r.evs ++ u.trace)⟩

/-- `CardSelector.select_from_unparsed`; `available_cards` is taken in its
post-shuffle probe order. -/
def select_from_unparsed (env : ProbeEnv) (locked used : List Nat)
    (maxAllowed : Int) (available_cards : List RawCard) (target_wanters : Int)
    (inv : PInv) (max_attempts : Nat) : URes :=
  unparsedPhase1 env locked used maxAllowed
    (normalize_wanters target_wanters) target_wanters
    max_attempts available_cards inv none

/-- The priority-1 test of the cached-inventory scan: normalized demand at
or below the normalized target. -/
def inPriority1 (ntarget : Int) (c : ParsedCard) : Bool :=
  normalize_wanters c.wanters_count ≤ ntarget

/-- The filtering loop of `select_from_parsed`: skip wrong-rank, excluded,
unavailable and over-ceiling entries, and split the rest into the priority
partition and the overshoot partition (both in scan order). -/
def partitionParsed (locked used exclude : List Nat) (maxAllowed : Int)
    (target_rank : String) (ntarget : Int) :
    List ParsedCard → List ParsedCard × List ParsedCard
  | [] => ([], [])
  | c :: rest =>
      let p := partitionParsed locked used exclude maxAllowed target_rank ntarget rest
      if c.rank ≠ target_rank then p
      else if exclude.contains c.instance_id then p
      else if ¬ is_card_available locked used c.instance_id then p
      else if maxAllowed < c.wanters_count then p
      else if inPriority1 ntarget c then (c :: p.1, p.2)
      else (p.1, c :: p.2)

/-- `random.choice` on a non-empty list, with the random draw supplied as an
index. -/
def chooseAt : List ParsedCard → Nat → Option ParsedCard
  | [], _ => none
  | a :: as, n => some ((a :: as).get ⟨n % (as.length + 1), Nat.mod_lt _ (Nat.succ_pos _)⟩)

/-- Head of the overshoot partition after the stable ascending sort on
`wanters_count`: the first entry attaining the minimum demand. -/
def minByWanters : ParsedCard → List ParsedCard → ParsedCard
  | b, [] => b
  | b, c :: rest =>
      minByWanters (if c.wanters_count < b.wanters_count then c else b) rest

/-- `CardSelector.select_from_parsed`: partition the cached entries, pick a
random priority-1 entry if any, else the minimum-demand overshoot entry,
else `none`. -/
def select_from_parsed (locked used exclude : List Nat) (maxAllowed : Int)
    (inv : PInv) (target_rank : String) (target_wanters : Int)
    (choice : Nat) : Option ParsedCard :=
  let ntarget := normalize_wanters target_wanters
  let p := partitionParsed locked used exclude maxAllowed target_rank ntarget
    (inv.map Prod.snd)
  match p.1 with
  | a :: as => chooseAt (a :: as) choice
  | [] =>
      match p.2 with
      | b :: bs => some (minByWanters b bs)
      | [] => none

/-- Result of `select_best_card`: the selected card, the final cache, and
the unprobed-phase trace. -/
structure SelOut where
  result : Option ParsedCard
  inv : PInv
  trace : List Ev
deriving DecidableEq

/-- `CardSelector.select_best_card`: unprobed-first phase on the rank-
filtered raw inventory, then the cached-inventory fallback on the (mutated)
parsed inventory; `exclude_instances` is passed only to the fallback. -/
def select_best_card (env : ProbeEnv) (locked used : List Nat)
    (inventory : List RawCard) (parsed_inventory : PInv)
    (target_rank : String) (target_wanters : Int) (maxAllowed : Int)
    (max_attempts : Nat) (exclude_instances : List Nat) (choice : Nat) : SelOut :=
  if inventory.isEmpty ∧ parsed_inventory.isEmpty then ⟨none, parsed_inventory, []⟩
  else
    match filter_cards_by_rank locked used inventory target_rank with
    | c :: cs =>
        let u := select_from_unparsed env locked used maxAllowed (c :: cs)
          target_wanters parsed_inventory max_attempts
        match u.result with
        | some pc => ⟨some pc, u.inv, u.trace⟩
        | none =>
            if u.inv.isEmpty then ⟨none, u.inv, u.trace⟩
            else
              ⟨select_from_parsed locked used exclude_instances maxAllowed u.inv
                target_rank target_wanters choice, u.inv, u.trace⟩
    | [] =>
        if parsed_inventory.isEmpty then ⟨none, parsed_inventory, []⟩
        else
          ⟨select_from_parsed locked used exclude_instances maxAllowed
            parsed_inventory target_rank target_wanters choice,
            parsed_inventory, []⟩

/-! ## Claim C8: normalization collapses low demand -/

/-- C8: `normalize_wanters` sends every value at or below the threshold to
`0` and is the identity above it; hence the priority-partition test of the
cached-inventory scan gives the same verdict to any two entries whose
demands are both at or below the threshold, so swapping two low-demand
values never changes which partition either entry lands in. -/
theorem normalize_partition_invariance :
    (∀ x : Int, x ≤ LOW_WANTERS_THRESHOLD → normalize_wanters x = 0) ∧
    (∀ x : Int, LOW_WANTERS_THRESHOLD < x → normalize_wanters x = x) ∧
    (∀ (ntarget : Int) (c d : ParsedCard),
      c.wanters_count ≤ LOW_WANTERS_THRESHOLD →
      d.wanters_count ≤ LOW_WANTERS_THRESHOLD →
      inPriority1 ntarget c = inPriority1 ntarget d) := by
  refine ⟨?_, ?_, ?_⟩
  · intro x hx
    simp [normalize_wanters, hx]
  · intro x hx
    simp only [normalize_wanters]
    split_ifs with h
    · omega
    · rfl
  · intro ntarget c d hc hd
    simp only [inPriority1, normalize_wanters]
    split_ifs <;> simp_all

theorem normalize_partition_invariance_witness :
    inPriority1 20 ⟨1, "S", 3, 10⟩ = inPriority1 20 ⟨2, "S", 5, 11⟩ :=
  normalize_partition_invariance.2.2 20 ⟨1, "S", 3, 10⟩ ⟨2, "S", 5, 11⟩
    (by decide) (by decide)

/-! ## Claim C4: the cached-inventory phase -/

theorem chooseAt_mem (l : List ParsedCard) (n : Nat) (pc : ParsedCard)
    (h : chooseAt l n = some pc) : pc ∈ l := by
  cases l with
  | nil => simp [chooseAt] at h
  | cons a as =>
      simp only [chooseAt, Option.some.injEq] at h
      rw [← h]
      exact List.get_mem _ _ _

theorem minByWanters_mem (b : ParsedCard) (l : List ParsedCard) :
    minByWanters b l ∈ b :: l := by
  induction l generalizing b with
  | nil => simp [minByWanters]
  | cons c rest ih =>
      have h := ih (if c.wanters_count < b.wanters_count then c else b)
      simp only [minByWanters]
      rcases List.mem_cons.mp h with h1 | h1
      · rw [h1]
        split_ifs
        · exact List.mem_cons_of_mem _ (List.mem_cons_self _ _)
        · exact List.mem_cons_self _ _
      · exact List.mem_cons_of_mem _ (List.mem_cons_of_mem _ h1)

theorem minByWanters_le (b : ParsedCard) (l : List ParsedCard) :
    ∀ c ∈ b :: l, (minByWanters b l).wanters_count ≤ c.wanters_count := by
  induction l generalizing b with
  | nil =>
      intro c hc
      rcases List.mem_cons.mp hc with rfl | h
      · simp [minByWanters]
      · simp at h
  | cons d rest ih =>
      intro c hc
      simp only [minByWanters]
      have hhead :
          (if d.wanters_count < b.wanters_count then d else b).wanters_count ≤
            b.wanters_count ∧
          (if d.wanters_count < b.wanters_count then d else b).wanters_count ≤
            d.wanters_count := by
        split_ifs <;> omega
      have hmin := ih (if d.wanters_count < b.wanters_count then d else b)
      rcases List.mem_cons.mp hc with rfl | hc1
      · exact le_trans (hmin _ (List.mem_cons_self _ _)) hhead.1
      · rcases List.mem_cons.mp hc1 with rfl | hc2
        · exact le_trans (hmin _ (List.mem_cons_self _ _)) hhead.2
        · exact hmin _ (List.mem_cons_of_mem _ hc2)

def exCard40 : ParsedCard := ⟨101, "S", 40, 11⟩
def exCard25 : ParsedCard := ⟨102, "S", 25, 12⟩
def exCard60 : ParsedCard := ⟨103, "S", 60, 13⟩
def exPInv : PInv := [(101, exCard40), (102, exCard25), (103, exCard60)]

/-- C4: in the cached-inventory phase, writing `(p1, p2)` for the priority
and overshoot partitions of the filtered entries: if `p1` is non-empty the
result is a member of `p1`; else if `p2` is non-empty the result is a member
of `p2` of minimum raw demand; else the result is `none`.  In particular on
cached demands `[40, 25, 60]` with target `20` the `25`-demand entry is
returned. -/
theorem parsed_selection_spec (locked used exclude : List Nat)
    (maxAllowed : Int) (inv : PInv) (target_rank : String)
    (target_wanters : Int) (choice : Nat) :
    ((partitionParsed locked used exclude maxAllowed target_rank
        (normalize_wanters target_wanters) (inv.map Prod.snd)).1 ≠ [] →
      ∃ pc, select_from_parsed locked used exclude maxAllowed inv target_rank
          target_wanters choice = some pc ∧
        pc ∈ (partitionParsed locked used exclude maxAllowed target_rank
          (normalize_wanters target_wanters) (inv.map Prod.snd)).1) ∧
    ((partitionParsed locked used exclude maxAllowed target_rank
        (normalize_wanters target_wanters) (inv.map Prod.snd)).1 = [] →
      (partitionParsed locked used exclude maxAllowed target_rank
        (normalize_wanters target_wanters) (inv.map Prod.snd)).2 ≠ [] →
      ∃ pc, select_from_parsed locked used exclude maxAllowed inv target_rank
          target_wanters choice = some pc ∧
        pc ∈ (partitionParsed locked used exclude maxAllowed target_rank
          (normalize_wanters target_wanters) (inv.map Prod.snd)).2 ∧
        ∀ d ∈ (partitionParsed locked used exclude maxAllowed target_rank
          (normalize_wanters target_wanters) (inv.map Prod.snd)).2,
          pc.wanters_count ≤ d.wanters_count) ∧
    ((partitionParsed locked used exclude maxAllowed target_rank
        (normalize_wanters target_wanters) (inv.map Prod.snd)).1 = [] →
      (partitionParsed locked used exclude maxAllowed target_rank
        (normalize_wanters target_wanters) (inv.map Prod.snd)).2 = [] →
      select_from_parsed locked used exclude maxAllowed inv target_rank
        target_wanters choice = none) ∧
    select_from_parsed [] [] [] 70 exPInv "S" 20 0 = some exCard25 := by
  refine ⟨?_, ?_, ?_, by decide⟩
  · intro h1
    rcases hp1 : (partitionParsed locked used exclude maxAllowed target_rank
        (normalize_wanters target_wanters) (inv.map Prod.snd)).1 with _ | ⟨a, as⟩
    · exact absurd hp1 h1
    · rcases hch : chooseAt (a :: as) choice with _ | pc
      · simp [chooseAt] at hch
      · refine ⟨pc, ?_, ?_⟩
        · simp only [select_from_parsed, hp1]
          exact hch
        · exact chooseAt_mem _ _ _ hch
  · intro h1 h2
    rcases hp2 : (partitionParsed locked used exclude maxAllowed target_rank
        (normalize_wanters target_wanters) (inv.map Prod.snd)).2 with _ | ⟨b, bs⟩
    · exact absurd hp2 h2
    · refine ⟨minByWanters b bs, ?_, ?_, ?_⟩
      · simp only [select_from_parsed, h1, hp2]
      · exact minByWanters_mem b bs
      · exact minByWanters_le b bs
  · intro h1 h2
    simp only [select_from_parsed, h1, h2]

theorem parsed_selection_spec_witness :
    (partitionParsed [] [] [] 70 "S" (normalize_wanters 20)
      (exPInv.map Prod.snd)).1 = [] ∧
    (partitionParsed [] [] [] 70 "S" (normalize_wanters 20)
      (exPInv.map Prod.snd)).2 ≠ [] ∧
    ∃ pc, select_from_parsed [] [] [] 70 exPInv "S" 20 0 = some pc ∧
      pc ∈ (partitionParsed [] [] [] 70 "S" (normalize_wanters 20)
        (exPInv.map Prod.snd)).2 ∧
      ∀ d ∈ (partitionParsed [] [] [] 70 "S" (normalize_wanters 20)
        (exPInv.map Prod.snd)).2, pc.wanters_count ≤ d.wanters_count :=
  ⟨by decide, by decide,
    (parsed_selection_spec [] [] [] 70 exPInv "S" 20 0).2.1 (by decide) (by decide)⟩

/-! ## Unprobed-first phase: traces -/

/-- The cards removed from the persisted raw inventory, read off the trace
in execution order. -/
def removedOf (tr : List Ev) : List RawCard :=
  tr.filterMap fun e =>
    match e with
    | Ev.remove c => some c
    | Ev.probe _ => none

theorem removedOf_append (t1 t2 : List Ev) :
    removedOf (t1 ++ t2) = removedOf t1 ++ removedOf t2 :=
  List.filterMap_append _ _ _

theorem removedOf_cons_remove (c : RawCard) (t : List Ev) :
    removedOf (Ev.remove c :: t) = c :: removedOf t := by
  simp [removedOf, List.filterMap_cons]

theorem removedOf_cons_probe (c : RawCard) (t : List Ev) :
    removedOf (Ev.probe c :: t) = removedOf t := by
  simp [removedOf, List.filterMap_cons]

theorem parse_evs_cases (env : ProbeEnv) (locked used : List Nat)
    (maxAllowed : Int) (card : RawCard) (inv : PInv) :
    (parse_and_cache_card env locked used maxAllowed card inv).evs = [] ∨
    (parse_and_cache_card env locked used maxAllowed card inv).evs =
      [Ev.probe card] := by
  unfold parse_and_cache_card probeCard
  split_ifs <;> first
    | exact Or.inl rfl
    | (rcases pLookup inv card.card_id with _ | cached <;>
        simp only [] <;> split_ifs <;> simp [probeCard] <;> split_ifs <;> simp)

theorem parse_removedOf_evs (env : ProbeEnv) (locked used : List Nat)
    (maxAllowed : Int) (card : RawCard) (inv : PInv) :
    removedOf (parse_and_cache_card env locked used maxAllowed card inv).evs
      = [] := by
  rcases parse_evs_cases env locked used maxAllowed card inv with h | h <;>
    simp [h, removedOf]

theorem probeCard_none_inv (env : ProbeEnv) (maxAllowed : Int)
    (card : RawCard) (inv : PInv)
    (h : (probeCard env maxAllowed card inv).res = none) :
    (probeCard env maxAllowed card inv).inv = inv := by
  simp only [probeCard] at h ⊢
  split_ifs at h ⊢ <;> simp_all

theorem parse_none_inv (env : ProbeEnv) (locked used : List Nat)
    (maxAllowed : Int) (card : RawCard) (inv : PInv)
    (h : (parse_and_cache_card env locked used maxAllowed card inv).res = none) :
    (parse_and_cache_card env locked used maxAllowed card inv).inv = inv := by
  unfold parse_and_cache_card at h ⊢
  split_ifs at h ⊢
  · rcases hl : pLookup inv card.card_id with _ | cached
    · rw [hl] at h
      exact probeCard_none_inv env maxAllowed card inv h
    · rw [hl] at h
      by_cases hv : env.cache_valid cached = true
      · simp [hv] at h
      · simp [hv] at h ⊢
        exact probeCard_none_inv env maxAllowed card inv h
  · rfl

/-! ## Claim C3: short-circuit of the unprobed-first phase -/

/-- The cache state after examining (removing and parsing) a list of cards
in order, as the unprobed-first loop does. -/
def examineInv (env : ProbeEnv) (locked used : List Nat) (maxAllowed : Int) :
    List RawCard → PInv → PInv
  | [], inv => inv
  | c :: rest, inv =>
      examineInv env locked used maxAllowed rest
        (parse_and_cache_card env locked used maxAllowed c inv).inv

/-- No card of the list yields a qualifying parse along the run: each
candidate, parsed in the cache state reached at its turn, either fails to
parse or parses with normalized demand above the normalized target (a
failure, an over-ceiling skip, an unavailable instance, or a successful
overshoot probe all satisfy this). -/
def noQualifyingHit (env : ProbeEnv) (locked used : List Nat)
    (maxAllowed ntarget : Int) : List RawCard → PInv → Bool
  | [], _ => true
  | p :: rest, inv =>
      (match (parse_and_cache_card env locked used maxAllowed p inv).res with
       | none => true
       | some q => decide (¬ normalize_wanters q.wanters_count ≤ ntarget)) &&
      noQualifyingHit env locked used maxAllowed ntarget rest
        (parse_and_cache_card env locked used maxAllowed p inv).inv

theorem phase1_short_circuit (env : ProbeEnv) (locked used : List Nat)
    (maxAllowed ntarget target : Int) :
    ∀ (pre : List RawCard) (c : RawCard) (post : List RawCard) (inv : PInv)
      (pc : ParsedCard) (n : Nat) (best : Option ParsedCard),
      noQualifyingHit env locked used maxAllowed ntarget pre inv = true →
      (parse_and_cache_card env locked used maxAllowed c
        (examineInv env locked used maxAllowed pre inv)).res = some pc →
      normalize_wanters pc.wanters_count ≤ ntarget →
      pre.length < n →
      (unparsedPhase1 env locked used maxAllowed ntarget target n
          (pre ++ c :: post) inv best).result = some pc ∧
      removedOf (unparsedPhase1 env locked used maxAllowed ntarget target n
          (pre ++ c :: post) inv best).trace = pre ++ [c] := by
  intro pre
  induction pre with
  | nil =>
      intro c post inv pc n best hpre hc hpc hlen
      cases n with
      | zero => omega
      | succ m =>
          have hc2 : (parse_and_cache_card env locked used maxAllowed c
              inv).res = some pc := hc
          have hblock : unparsedPhase1 env locked used maxAllowed ntarget target
              (m + 1) (c :: post) inv best =
              ⟨some pc, (parse_and_cache_card env locked used maxAllowed c inv).inv,
                Ev.remove c ::
                  (parse_and_cache_card env locked used maxAllowed c inv).evs⟩ := by
            simp only [unparsedPhase1]
            rw [hc2]
            simp [hpc]
          rw [List.nil_append, hblock]
          refine ⟨rfl, ?_⟩
          rw [removedOf_cons_remove, parse_removedOf_evs]
          rfl
  | cons p pre ih =>
      intro c post inv pc n best hpre hc hpc hlen
      cases n with
      | zero => simp at hlen
      | succ m =>
          simp only [noQualifyingHit, Bool.and_eq_true] at hpre
          have htail : noQualifyingHit env locked used maxAllowed ntarget pre
              (parse_and_cache_card env locked used maxAllowed p inv).inv
              = true := hpre.2
          have hc2 : (parse_and_cache_card env locked used maxAllowed c
              (examineInv env locked used maxAllowed pre
                (parse_and_cache_card env locked used maxAllowed p inv).inv)).res
              = some pc := hc
          rcases hres : (parse_and_cache_card env locked used maxAllowed p inv).res
            with _ | q
          · have hrec := ih c post
              (parse_and_cache_card env locked used maxAllowed p inv).inv pc m
              best htail hc2 hpc (by simpa using hlen)
            simp only [List.cons_append, unparsedPhase1, hres]
            constructor
            · exact hrec.1
            · rw [removedOf_cons_remove, removedOf_append,
                parse_removedOf_evs env locked used maxAllowed p inv]
              simp only [List.nil_append, List.append_eq]
              rw [hrec.2]
          · have hq : ¬ normalize_wanters q.wanters_count ≤ ntarget := by
              have h1 := hpre.1
              rw [hres] at h1
              simpa using h1
            have hrec := ih c post
              (parse_and_cache_card env locked used maxAllowed p inv).inv pc m
              (updateBestAlt target best q) htail hc2 hpc (by simpa using hlen)
            simp only [List.cons_append, unparsedPhase1, hres, if_neg hq]
            constructor
            · exact hrec.1
            · rw [removedOf_cons_remove, removedOf_append,
                parse_removedOf_evs env locked used maxAllowed p inv]
              simp only [List.nil_append, List.append_eq]
              rw [hrec.2]

/-- C3: in the unprobed-first phase, as soon as a candidate parses with
normalized demand at or below the normalized target, its record is returned
immediately and only the candidates up to and including it are taken — none
of the remaining candidates is touched.  The candidates before the
qualifying one may have any non-qualifying outcome along the run: a failed
probe, an over-ceiling or unavailable skip, or a successful overshoot probe
tracked as a best alternative. -/
theorem unparsed_short_circuit (env : ProbeEnv) (locked used : List Nat)
    (maxAllowed target_wanters : Int) (pre : List RawCard) (c : RawCard)
    (post : List RawCard) (inv : PInv) (pc : ParsedCard) (max_attempts : Nat)
    (hpre : noQualifyingHit env locked used maxAllowed
      (normalize_wanters target_wanters) pre inv = true)
    (hc : (parse_and_cache_card env locked used maxAllowed c
      (examineInv env locked used maxAllowed pre inv)).res = some pc)
    (hpc : normalize_wanters pc.wanters_count ≤ normalize_wanters target_wanters)
    (hlen : pre.length < max_attempts) :
    (select_from_unparsed env locked used maxAllowed (pre ++ c :: post)
        target_wanters inv max_attempts).result = some pc ∧
    removedOf (select_from_unparsed env locked used maxAllowed (pre ++ c :: post)
        target_wanters inv max_attempts).trace = pre ++ [c] :=
  phase1_short_circuit env locked used maxAllowed
    (normalize_wanters target_wanters) target_wanters pre c post inv pc
    max_attempts none hpre hc hpc hlen

def exProbeEnv : ProbeEnv :=
  ⟨fun cid => if cid = 1 then 3 else if cid = 2 then 50 else 200, fun _ => true⟩

def exRaw3 : RawCard := ⟨21, 1, "S"⟩
def exRaw50 : RawCard := ⟨22, 2, "S"⟩
def exRaw200 : RawCard := ⟨23, 3, "S"⟩

theorem unparsed_short_circuit_witness :
    ((select_from_unparsed exProbeEnv [] [] 70 [exRaw3, exRaw50, exRaw200]
        10 [] 40).result = some ⟨1, "S", 3, 21⟩ ∧
      removedOf (select_from_unparsed exProbeEnv [] [] 70
        [exRaw3, exRaw50, exRaw200] 10 [] 40).trace = [exRaw3]) ∧
    ((select_from_unparsed exProbeEnv [] [] 70 [exRaw50, exRaw3, exRaw200]
        10 [] 40).result = some ⟨1, "S", 3, 21⟩ ∧
      removedOf (select_from_unparsed exProbeEnv [] [] 70
        [exRaw50, exRaw3, exRaw200] 10 [] 40).trace = [exRaw50, exRaw3]) := by
  constructor
  · have h := unparsed_short_circuit exProbeEnv [] [] 70 10 [] exRaw3
      [exRaw50, exRaw200] [] ⟨1, "S", 3, 21⟩ 40
      (by decide) (by decide) (by decide) (by decide)
    simpa using h
  · have h := unparsed_short_circuit exProbeEnv [] [] 70 10 [exRaw50] exRaw3
      [exRaw200] [] ⟨1, "S", 3, 21⟩ 40
      (by decide) (by decide) (by decide) (by decide)
    simpa using h

/-! ## Claim C10: removal precedes every probe -/

/-- Every probe in the trace is preceded by the removal of the probed card
from the persisted raw inventory. -/
def ProbeAfterRemove (tr : List Ev) : Prop :=
  ∀ t1 c t2, tr = t1 ++ Ev.probe c :: t2 → Ev.remove c ∈ t1

theorem probeAfterRemove_nil : ProbeAfterRemove [] := by
  intro t1 c t2 h
  exact absurd h (by simp)

theorem probeAfterRemove_block (c : RawCard) (evs rest : List Ev)
    (hevs : evs = [] ∨ evs = [Ev.probe c]) (hrest : ProbeAfterRemove rest) :
    ProbeAfterRemove (Ev.remove c :: (evs ++ rest)) := by
  intro t1 d t2 heq
  cases t1 with
  | nil => simp at heq
  | cons e t1 =>
      rw [List.cons_append] at heq
      injection heq with h1 h2
      rcases hevs with rfl | rfl
      · rw [List.nil_append] at h2
        exact List.mem_cons_of_mem _ (hrest t1 d t2 h2)
      · cases t1 with
        | nil =>
            simp only [List.cons_append, List.nil_append] at h2
            injection h2 with h3 h4
            injection h3 with h5
            subst h5
            rw [← h1]
            exact List.mem_cons_self _ _
        | cons f t1 =>
            simp only [List.cons_append, List.nil_append] at h2
            injection h2 with h3 h4
            exact List.mem_cons_of_mem _
              (List.mem_cons_of_mem _ (hrest t1 d t2 h4))

theorem unparsedPhase2_trace (env : ProbeEnv) (locked used : List Nat)
    (maxAllowed ntarget target : Int) :
    ∀ (cards : List RawCard) (inv : PInv) (best : ParsedCard),
      (∃ k, removedOf (unparsedPhase2 env locked used maxAllowed ntarget
        target cards inv best).trace = cards.take k) ∧
      ProbeAfterRemove (unparsedPhase2 env locked used maxAllowed ntarget
        target cards inv best).trace := by
  intro cards
  induction cards with
  | nil =>
      intro inv best
      exact ⟨⟨0, by simp [unparsedPhase2, removedOf]⟩,
        by simpa [unparsedPhase2] using probeAfterRemove_nil⟩
  | cons c rest ih =>
      intro inv best
      rcases hres : (parse_and_cache_card env locked used maxAllowed c inv).res
        with _ | pc
      · have hrec := ih (parse_and_cache_card env locked used maxAllowed c inv).inv best
        rcases hrec.1 with ⟨k, hk⟩
        constructor
        · refine ⟨k + 1, ?_⟩
          simp only [unparsedPhase2, hres, removedOf, List.filterMap_cons]
          rw [← removedOf, removedOf_append, parse_removedOf_evs, hk]
          simp
        · simp only [unparsedPhase2, hres]
          exact probeAfterRemove_block c _ _
            (parse_evs_cases env locked used maxAllowed c inv) hrec.2
      · by_cases hle : normalize_wanters pc.wanters_count ≤ ntarget
        · constructor
          · refine ⟨1, ?_⟩
            simp only [unparsedPhase2, hres, if_pos hle, removedOf,
              List.filterMap_cons]
            rw [← removedOf, parse_removedOf_evs]
            simp
          · simp only [unparsedPhase2, hres, if_pos hle]
            have := probeAfterRemove_block c
              (parse_and_cache_card env locked used maxAllowed c inv).evs []
              (parse_evs_cases env locked used maxAllowed c inv)
              probeAfterRemove_nil
            simpa using this
        · have hrec := ih (parse_and_cache_card env locked used maxAllowed c inv).inv
            (if target < pc.wanters_count ∧
              pc.wanters_count < best.wanters_count then pc else best)
          rcases hrec.1 with ⟨k, hk⟩
          constructor
          · refine ⟨k + 1, ?_⟩
            simp only [unparsedPhase2, hres, if_neg hle, removedOf,
              List.filterMap_cons]
            rw [← removedOf, removedOf_append, parse_removedOf_evs, hk]
            simp
          · simp only [unparsedPhase2, hres, if_neg hle]
            exact probeAfterRemove_block c _ _
              (parse_evs_cases env locked used maxAllowed c inv) hrec.2

theorem unparsedFinish_trace (env : ProbeEnv) (locked used : List Nat)
    (maxAllowed ntarget target : Int) (cards : List RawCard) (inv : PInv)
    (best : Option ParsedCard) :
    (∃ k, removedOf (unparsedFinish env locked used maxAllowed ntarget
      target cards inv best).trace = cards.take k) ∧
    ProbeAfterRemove (unparsedFinish env locked used maxAllowed ntarget
      target cards inv best).trace := by
  cases cards with
  | nil =>
      cases best <;>
        exact ⟨⟨0, by simp [unparsedFinish, removedOf]⟩,
          by simpa [unparsedFinish] using probeAfterRemove_nil⟩
  | cons c rest =>
      cases best with
      | none =>
          exact ⟨⟨0, by simp [unparsedFinish, removedOf]⟩,
            by simpa [unparsedFinish] using probeAfterRemove_nil⟩
      | some b =>
          simpa [unparsedFinish] using
            unparsedPhase2_trace env locked used maxAllowed ntarget target
              (c :: rest) inv b

theorem unparsedPhase1_trace (env : ProbeEnv) (locked used : List Nat)
    (maxAllowed ntarget target : Int) :
    ∀ (n : Nat) (cards : List RawCard) (inv : PInv) (best : Option ParsedCard),
      (∃ k, removedOf (unparsedPhase1 env locked used maxAllowed ntarget
        target n cards inv best).trace = cards.take k) ∧
      ProbeAfterRemove (unparsedPhase1 env locked used maxAllowed ntarget
        target n cards inv best).trace := by
  intro n
  induction n with
  | zero =>
      intro cards inv best
      simpa [unparsedPhase1] using
        unparsedFinish_trace env locked used maxAllowed ntarget target cards inv best
  | succ m ih =>
      intro cards inv best
      cases cards with
      | nil =>
          simpa [unparsedPhase1] using
            unparsedFinish_trace env locked used maxAllowed ntarget target [] inv best
      | cons c rest =>
          rcases hres : (parse_and_cache_card env locked used maxAllowed c inv).res
            with _ | pc
          · have hrec := ih rest
              (parse_and_cache_card env locked used maxAllowed c inv).inv best
            rcases hrec.1 with ⟨k, hk⟩
            constructor
            · refine ⟨k + 1, ?_⟩
              simp only [unparsedPhase1, hres, removedOf, List.filterMap_cons]
              rw [← removedOf, removedOf_append, parse_removedOf_evs, hk]
              simp
            · simp only [unparsedPhase1, hres]
              exact probeAfterRemove_block c _ _
                (parse_evs_cases env locked used maxAllowed c inv) hrec.2
          · by_cases hle : normalize_wanters pc.wanters_count ≤ ntarget
            · constructor
              · refine ⟨1, ?_⟩
                simp only [unparsedPhase1, hres, if_pos hle, removedOf,
                  List.filterMap_cons]
                rw [← removedOf, parse_removedOf_evs]
                simp
              · simp only [unparsedPhase1, hres, if_pos hle]
                have := probeAfterRemove_block c
                  (parse_and_cache_card env locked used maxAllowed c inv).evs []
                  (parse_evs_cases env locked used maxAllowed c inv)
                  probeAfterRemove_nil
                simpa using this
            · have hrec := ih rest
                (parse_and_cache_card env locked used maxAllowed c inv).inv
                (updateBestAlt target best pc)
              rcases hrec.1 with ⟨k, hk⟩
              constructor
              · refine ⟨k + 1, ?_⟩
                simp only [unparsedPhase1, hres, if_neg hle, removedOf,
                  List.filterMap_cons]
                rw [← removedOf, removedOf_append, parse_removedOf_evs, hk]
                simp
              · simp only [unparsedPhase1, hres, if_neg hle]
                exact probeAfterRemove_block c _ _
                  (parse_evs_cases env locked used maxAllowed c inv) hrec.2

/-- C10: during the unprobed-first phase, the cards removed from the
persisted raw inventory are exactly the consumed prefix of the shuffled
candidate list — every examined candidate is removed, including those whose
probe fails, exceeds the ceiling, or is not returned — and every live demand
probe in the trace is preceded by the removal of the probed card. -/
theorem remove_before_probe (env : ProbeEnv) (locked used : List Nat)
    (maxAllowed : Int) (available_cards : List RawCard) (target_wanters : Int)
    (inv : PInv) (max_attempts : Nat) :
    (∃ k, removedOf (select_from_unparsed env locked used maxAllowed
      available_cards target_wanters inv max_attempts).trace =
        available_cards.take k) ∧
    ProbeAfterRemove (select_from_unparsed env locked used maxAllowed
      available_cards target_wanters inv max_attempts).trace :=
  unparsedPhase1_trace env locked used maxAllowed
    (normalize_wanters target_wanters) target_wanters max_attempts
    available_cards inv none

theorem remove_before_probe_witness :
    (∃ k, removedOf (select_from_unparsed exProbeEnv [] [] 70
      [exRaw3, exRaw50, exRaw200] 10 [] 40).trace =
        [exRaw3, exRaw50, exRaw200].take k) ∧
    ProbeAfterRemove (select_from_unparsed exProbeEnv [] [] 70
      [exRaw3, exRaw50, exRaw200] 10 [] 40).trace :=
  remove_before_probe exProbeEnv [] [] 70 [exRaw3, exRaw50, exRaw200] 10 [] 40

/-! ## Claim C6: used and locked instances are never selected -/

theorem probeCard_some_instance (env : ProbeEnv) (maxAllowed : Int)
    (card : RawCard) (inv : PInv) (pc : ParsedCard)
    (h : (probeCard env maxAllowed card inv).res = some pc) :
    pc.instance_id = card.instance_id := by
  simp only [probeCard] at h
  split_ifs at h <;> simp_all
  rw [← h]

theorem parse_some_available (env : ProbeEnv) (locked used : List Nat)
    (maxAllowed : Int) (card : RawCard) (inv : PInv) (pc : ParsedCard)
    (h : (parse_and_cache_card env locked used maxAllowed card inv).res = some pc) :
    is_card_available locked used pc.instance_id = true := by
  unfold parse_and_cache_card at h
  split_ifs at h with ha
  · rcases hl : pLookup inv card.card_id with _ | cached
    · rw [hl] at h
      rw [probeCard_some_instance env maxAllowed card inv pc h]
      exact ha
    · rw [hl] at h
      by_cases hv : env.cache_valid cached = true
      · simp [hv] at h
        rw [← h]
        exact ha
      · simp [hv] at h
        rw [probeCard_some_instance env maxAllowed card inv pc h]
        exact ha

theorem updateBestAlt_available (locked used : List Nat) (target : Int)
    (best : Option ParsedCard) (pc : ParsedCard)
    (hbest : ∀ b, best = some b → is_card_available locked used b.instance_id = true)
    (hpc : is_card_available locked used pc.instance_id = true) :
    ∀ b, updateBestAlt target best pc = some b →
      is_card_available locked used b.instance_id = true := by
  intro b hb
  unfold updateBestAlt at hb
  split_ifs at hb
  · cases best with
    | none =>
        injection hb with h1
        rw [← h1]
        exact hpc
    | some b0 =>
        simp only [] at hb
        split_ifs at hb <;> injection hb with h1 <;> rw [← h1]
        · exact hpc
        · exact hbest b0 rfl
  · exact hbest b hb

theorem unparsedPhase2_available (env : ProbeEnv) (locked used : List Nat)
    (maxAllowed ntarget target : Int) :
    ∀ (cards : List RawCard) (inv : PInv) (best : ParsedCard) (pc : ParsedCard),
      is_card_available locked used best.instance_id = true →
      (unparsedPhase2 env locked used maxAllowed ntarget target cards inv
        best).result = some pc →
      is_card_available locked used pc.instance_id = true := by
  intro cards
  induction cards with
  | nil =>
      intro inv best pc hbest h
      simp only [unparsedPhase2] at h
      injection h with h1
      rw [← h1]
      exact hbest
  | cons c rest ih =>
      intro inv best pc hbest h
      rcases hres : (parse_and_cache_card env locked used maxAllowed c inv).res
        with _ | pc0
      · simp only [unparsedPhase2, hres] at h
        exact ih _ _ _ hbest h
      · by_cases hle : normalize_wanters pc0.wanters_count ≤ ntarget
        · simp only [unparsedPhase2, hres, if_pos hle] at h
          injection h with h1
          rw [← h1]
          exact parse_some_available env locked used maxAllowed c inv pc0 hres
        · simp only [unparsedPhase2, hres, if_neg hle] at h
          have hpc0 := parse_some_available env locked used maxAllowed c inv pc0 hres
          split_ifs at h with hcond
          · exact ih _ _ _ hpc0 h
          · exact ih _ _ _ hbest h

theorem unparsedFinish_available (env : ProbeEnv) (locked used : List Nat)
    (maxAllowed ntarget target : Int) (cards : List RawCard) (inv : PInv)
    (best : Option ParsedCard) (pc : ParsedCard)
    (hbest : ∀ b, best = some b → is_card_available locked used b.instance_id = true)
    (h : (unparsedFinish env locked used maxAllowed ntarget target cards inv
      best).result = some pc) :
    is_card_available locked used pc.instance_id = true := by
  cases cards with
  | nil =>
      cases best with
      | none => simp [unparsedFinish] at h
      | some b =>
          simp only [unparsedFinish] at h
          injection h with h1
          rw [← h1]
          exact hbest b rfl
  | cons c rest =>
      cases best with
      | none => simp [unparsedFinish] at h
      | some b =>
          simp only [unparsedFinish] at h
          exact unparsedPhase2_available env locked used maxAllowed ntarget
            target (c :: rest) inv b pc (hbest b rfl) h

theorem unparsedPhase1_available (env : ProbeEnv) (locked used : List Nat)
    (maxAllowed ntarget target : Int) :
    ∀ (n : Nat) (cards : List RawCard) (inv : PInv) (best : Option ParsedCard)
      (pc : ParsedCard),
      (∀ b, best = some b → is_card_available locked used b.instance_id = true) →
      (unparsedPhase1 env locked used maxAllowed ntarget target n cards inv
        best).result = some pc →
      is_card_available locked used pc.instance_id = true := by
  intro n
  induction n with
  | zero =>
      intro cards inv best pc hbest h
      exact unparsedFinish_available env locked used maxAllowed ntarget target
        cards inv best pc hbest (by simpa [unparsedPhase1] using h)
  | succ m ih =>
      intro cards inv best pc hbest h
      cases cards with
      | nil =>
          exact unparsedFinish_available env locked used maxAllowed ntarget
            target [] inv best pc hbest (by simpa [unparsedPhase1] using h)
      | cons c rest =>
          rcases hres : (parse_and_cache_card env locked used maxAllowed c inv).res
            with _ | pc0
          · simp only [unparsedPhase1, hres] at h
            exact ih _ _ _ _ hbest h
          · by_cases hle : normalize_wanters pc0.wanters_count ≤ ntarget
            · simp only [unparsedPhase1, hres, if_pos hle] at h
              injection h with h1
              rw [← h1]
              exact parse_some_available env locked used maxAllowed c inv pc0 hres
            · simp only [unparsedPhase1, hres, if_neg hle] at h
              have hpc0 := parse_some_available env locked used maxAllowed c inv pc0 hres
              exact ih _ _ _ _
                (updateBestAlt_available locked used target best pc0 hbest hpc0) h

theorem partitionParsed_available (locked used exclude : List Nat)
    (maxAllowed : Int) (target_rank : String) (ntarget : Int) :
    ∀ (l : List ParsedCard) (c : ParsedCard),
      (c ∈ (partitionParsed locked used exclude maxAllowed target_rank
        ntarget l).1 ∨
       c ∈ (partitionParsed locked used exclude maxAllowed target_rank
        ntarget l).2) →
      is_card_available locked used c.instance_id = true := by
  intro l
  induction l with
  | nil =>
      intro c hc
      simp [partitionParsed] at hc
  | cons d rest ih =>
      intro c hc
      simp only [partitionParsed] at hc
      by_cases h1 : d.rank ≠ target_rank
      · rw [if_pos h1] at hc
        exact ih c hc
      · rw [if_neg h1] at hc
        by_cases h2 : exclude.contains d.instance_id = true
        · rw [if_pos h2] at hc
          exact ih c hc
        · rw [if_neg h2] at hc
          by_cases h3 : ¬ is_card_available locked used d.instance_id = true
          · rw [if_pos h3] at hc
            exact ih c hc
          · rw [if_neg h3] at hc
            by_cases h4 : maxAllowed < d.wanters_count
            · rw [if_pos h4] at hc
              exact ih c hc
            · rw [if_neg h4] at hc
              by_cases h5 : inPriority1 ntarget d = true
              · rw [if_pos h5] at hc
                rcases hc with hc | hc
                · rcases List.mem_cons.mp hc with rfl | hc1
                  · simpa using h3
                  · exact ih c (Or.inl hc1)
                · exact ih c (Or.inr hc)
              · rw [if_neg h5] at hc
                rcases hc with hc | hc
                · exact ih c (Or.inl hc)
                · rcases List.mem_cons.mp hc with rfl | hc1
                  · simpa using h3
                  · exact ih c (Or.inr hc1)

theorem select_from_parsed_mem (locked used exclude : List Nat)
    (maxAllowed : Int) (inv : PInv) (target_rank : String)
    (target_wanters : Int) (choice : Nat) (pc : ParsedCard)
    (h : select_from_parsed locked used exclude maxAllowed inv target_rank
      target_wanters choice = some pc) :
    pc ∈ (partitionParsed locked used exclude maxAllowed target_rank
      (normalize_wanters target_wanters) (inv.map Prod.snd)).1 ∨
    pc ∈ (partitionParsed locked used exclude maxAllowed target_rank
      (normalize_wanters target_wanters) (inv.map Prod.snd)).2 := by
  simp only [select_from_parsed] at h
  rcases hp1 : (partitionParsed locked used exclude maxAllowed target_rank
      (normalize_wanters target_wanters) (inv.map Prod.snd)).1 with _ | ⟨a, as⟩
  · rw [hp1] at h
    rcases hp2 : (partitionParsed locked used exclude maxAllowed target_rank
        (normalize_wanters target_wanters) (inv.map Prod.snd)).2 with _ | ⟨b, bs⟩
    · rw [hp2] at h
      simp at h
    · rw [hp2] at h
      have h2 : some (minByWanters b bs) = some pc := h
      injection h2 with h3
      exact Or.inr (h3 ▸ minByWanters_mem b bs)
  · rw [hp1] at h
    have h2 : chooseAt (a :: as) choice = some pc := h
    exact Or.inl (chooseAt_mem _ _ _ h2)

theorem is_card_available_iff (locked used : List Nat) (i : Nat) :
    is_card_available locked used i = true ↔ ¬ i ∈ locked ∧ ¬ i ∈ used := by
  unfold is_card_available
  split_ifs with h1 h2 <;> simp_all

/-- C6: whatever card `select_best_card` returns — from the unprobed-first
phase or the cached-inventory fallback — its `instance_id` is in neither
`locked_cards` nor `used_cards`: an instance marked used or locked is never
selected while those sets hold it. -/
theorem selected_card_available (env : ProbeEnv) (locked used : List Nat)
    (inventory : List RawCard) (parsed_inventory : PInv) (target_rank : String)
    (target_wanters maxAllowed : Int) (max_attempts : Nat)
    (exclude_instances : List Nat) (choice : Nat) (pc : ParsedCard)
    (h : (select_best_card env locked used inventory parsed_inventory
      target_rank target_wanters maxAllowed max_attempts exclude_instances
      choice).result = some pc) :
    pc.instance_id ∉ locked ∧ pc.instance_id ∉ used := by
  rw [← is_card_available_iff]
  unfold select_best_card at h
  by_cases hemp : inventory.isEmpty = true ∧ List.isEmpty parsed_inventory = true
  · rw [if_pos hemp] at h
    simp at h
  · rw [if_neg hemp] at h
    rcases hfil : filter_cards_by_rank locked used inventory target_rank
      with _ | ⟨c, cs⟩
    · rw [hfil] at h
      by_cases hpe : List.isEmpty parsed_inventory = true
      · rw [if_pos hpe] at h
        simp at h
      · rw [if_neg hpe] at h
        have h2 : select_from_parsed locked used exclude_instances maxAllowed
            parsed_inventory target_rank target_wanters choice = some pc := h
        exact partitionParsed_available locked used exclude_instances
          maxAllowed target_rank (normalize_wanters target_wanters)
          (parsed_inventory.map Prod.snd) pc
          (select_from_parsed_mem locked used exclude_instances maxAllowed
            parsed_inventory target_rank target_wanters choice pc h2)
    · rw [hfil] at h
      simp only [] at h
      rcases hres : (select_from_unparsed env locked used maxAllowed (c :: cs)
          target_wanters parsed_inventory max_attempts).result with _ | pc0
      · rw [hres] at h
        simp only [] at h
        by_cases hie : List.isEmpty (select_from_unparsed env locked used
            maxAllowed (c :: cs) target_wanters parsed_inventory
            max_attempts).inv = true
        · rw [if_pos hie] at h
          simp at h
        · rw [if_neg hie] at h
          have h2 : select_from_parsed locked used exclude_instances maxAllowed
              (select_from_unparsed env locked used maxAllowed (c :: cs)
                target_wanters parsed_inventory max_attempts).inv
              target_rank target_wanters choice = some pc := h
          exact partitionParsed_available locked used exclude_instances
            maxAllowed target_rank (normalize_wanters target_wanters) _ pc
            (select_from_parsed_mem locked used exclude_instances maxAllowed _
              target_rank target_wanters choice pc h2)
      · rw [hres] at h
        have h2 : some pc0 = some pc := h
        injection h2 with h3
        rw [← h3]
        exact unparsedPhase1_available env locked used maxAllowed
          (normalize_wanters target_wanters) target_wanters max_attempts
          (c :: cs) parsed_inventory none pc0
          (fun b hb => absurd hb (by simp)) hres

theorem selected_card_available_witness :
    (21 : Nat) ∉ [4] ∧ (21 : Nat) ∉ [99] :=
  selected_card_available exProbeEnv [4] [99] [exRaw3] [] "S" 10 70 40 [] 0
    ⟨1, "S", 3, 21⟩ (by decide)

/-! ## Claim C5: the demand ceiling -/

/-- Every record of a cached inventory is at or below the demand ceiling. -/
def PBound (maxAllowed : Int) (inv : PInv) : Prop :=
  ∀ e ∈ inv, (Prod.snd e).wanters_count ≤ maxAllowed

theorem pLookup_bound (maxAllowed : Int) :
    ∀ (inv : PInv) (k : Nat) (e : ParsedCard), PBound maxAllowed inv →
      pLookup inv k = some e → e.wanters_count ≤ maxAllowed := by
  intro inv
  induction inv with
  | nil =>
      intro k e _ hl
      simp [pLookup] at hl
  | cons kv rest ih =>
      intro k e hb hl
      rcases kv with ⟨k0, v0⟩
      simp only [pLookup] at hl
      split_ifs at hl with hk
      · injection hl with h1
        rw [← h1]
        exact hb (k0, v0) (List.mem_cons_self _ _)
      · exact ih k e (fun x hx => hb x (List.mem_cons_of_mem _ hx)) hl

theorem pStore_bound (maxAllowed : Int) :
    ∀ (inv : PInv) (k : Nat) (pc : ParsedCard), PBound maxAllowed inv →
      pc.wanters_count ≤ maxAllowed →
      PBound maxAllowed (pStore inv k pc) := by
  intro inv
  induction inv with
  | nil =>
      intro k pc _ hpc e he
      simp only [pStore, List.mem_singleton] at he
      rw [he]
      exact hpc
  | cons kv rest ih =>
      intro k pc hb hpc e he
      rcases kv with ⟨k0, v0⟩
      simp only [pStore] at he
      split_ifs at he with hk
      · rcases List.mem_cons.mp he with rfl | he1
        · exact hpc
        · exact hb e (List.mem_cons_of_mem _ he1)
      · rcases List.mem_cons.mp he with rfl | he1
        · exact hb (k0, v0) (List.mem_cons_self _ _)
        · exact ih k pc (fun x hx => hb x (List.mem_cons_of_mem _ hx)) hpc e he1

theorem probeCard_some_bound (env : ProbeEnv) (maxAllowed : Int)
    (card : RawCard) (inv : PInv) (pc : ParsedCard)
    (h : (probeCard env maxAllowed card inv).res = some pc) :
    pc.wanters_count ≤ maxAllowed := by
  simp only [probeCard] at h
  split_ifs at h with h1 h2 <;> simp_all
  rw [← h]
  simp only []
  omega

theorem probeCard_inv_bound (env : ProbeEnv) (maxAllowed : Int)
    (card : RawCard) (inv : PInv) (hb : PBound maxAllowed inv) :
    PBound maxAllowed (probeCard env maxAllowed card inv).inv := by
  simp only [probeCard]
  split_ifs with h1 h2
  · exact hb
  · exact hb
  · exact pStore_bound maxAllowed inv card.card_id _ hb (by simp only []; omega)

theorem parse_some_bound (env : ProbeEnv) (locked used : List Nat)
    (maxAllowed : Int) (card : RawCard) (inv : PInv) (pc : ParsedCard)
    (hb : PBound maxAllowed inv)
    (h : (parse_and_cache_card env locked used maxAllowed card inv).res = some pc) :
    pc.wanters_count ≤ maxAllowed := by
  unfold parse_and_cache_card at h
  split_ifs at h with ha
  · rcases hl : pLookup inv card.card_id with _ | cached
    · rw [hl] at h
      exact probeCard_some_bound env maxAllowed card inv pc h
    · rw [hl] at h
      by_cases hv : env.cache_valid cached = true
      · simp [hv] at h
        rw [← h]
        exact pLookup_bound maxAllowed inv card.card_id cached hb hl
      · simp [hv] at h
        exact probeCard_some_bound env maxAllowed card inv pc h

theorem parse_inv_bound (env : ProbeEnv) (locked used : List Nat)
    (maxAllowed : Int) (card : RawCard) (inv : PInv)
    (hb : PBound maxAllowed inv) :
    PBound maxAllowed (parse_and_cache_card env locked used maxAllowed card inv).inv := by
  unfold parse_and_cache_card
  split_ifs with ha
  · rcases hl : pLookup inv card.card_id with _ | cached
    · exact probeCard_inv_bound env maxAllowed card inv hb
    · by_cases hv : env.cache_valid cached = true
      · simp only [hv, if_true]
        exact pStore_bound maxAllowed inv card.card_id _ hb
          (pLookup_bound maxAllowed inv card.card_id cached hb hl)
      · simp only [hv, if_false]
        exact probeCard_inv_bound env maxAllowed card inv hb
  · exact hb

theorem updateBestAlt_bound (maxAllowed target : Int)
    (best : Option ParsedCard) (pc : ParsedCard)
    (hbest : ∀ b, best = some b → b.wanters_count ≤ maxAllowed)
    (hpc : pc.wanters_count ≤ maxAllowed) :
    ∀ b, updateBestAlt target best pc = some b →
      b.wanters_count ≤ maxAllowed := by
  intro b hb
  unfold updateBestAlt at hb
  split_ifs at hb
  · cases best with
    | none =>
        injection hb with h1
        rw [← h1]
        exact hpc
    | some b0 =>
        simp only [] at hb
        split_ifs at hb <;> injection hb with h1 <;> rw [← h1]
        · exact hpc
        · exact hbest b0 rfl
  · exact hbest b hb

theorem unparsedPhase2_bound (env : ProbeEnv) (locked used : List Nat)
    (maxAllowed ntarget target : Int) :
    ∀ (cards : List RawCard) (inv : PInv) (best : ParsedCard) (pc : ParsedCard),
      PBound maxAllowed inv → best.wanters_count ≤ maxAllowed →
      (unparsedPhase2 env locked used maxAllowed ntarget target cards inv
        best).result = some pc →
      pc.wanters_count ≤ maxAllowed := by
  intro cards
  induction cards with
  | nil =>
      intro inv best pc _ hbest h
      simp only [unparsedPhase2] at h
      injection h with h1
      rw [← h1]
      exact hbest
  | cons c rest ih =>
      intro inv best pc hb hbest h
      have hb2 := parse_inv_bound env locked used maxAllowed c inv hb
      rcases hres : (parse_and_cache_card env locked used maxAllowed c inv).res
        with _ | pc0
      · simp only [unparsedPhase2, hres] at h
        exact ih _ _ _ hb2 hbest h
      · have hpc0 := parse_some_bound env locked used maxAllowed c inv pc0 hb hres
        by_cases hle : normalize_wanters pc0.wanters_count ≤ ntarget
        · simp only [unparsedPhase2, hres, if_pos hle] at h
          injection h with h1
          rw [← h1]
          exact hpc0
        · simp only [unparsedPhase2, hres, if_neg hle] at h
          split_ifs at h with hcond
          · exact ih _ _ _ hb2 hpc0 h
          · exact ih _ _ _ hb2 hbest h

theorem unparsedFinish_bound (env : ProbeEnv) (locked used : List Nat)
    (maxAllowed ntarget target : Int) (cards : List RawCard) (inv : PInv)
    (best : Option ParsedCard) (pc : ParsedCard)
    (hb : PBound maxAllowed inv)
    (hbest : ∀ b, best = some b → b.wanters_count ≤ maxAllowed)
    (h : (unparsedFinish env locked used maxAllowed ntarget target cards inv
      best).result = some pc) :
    pc.wanters_count ≤ maxAllowed := by
  cases cards with
  | nil =>
      cases best with
      | none => simp [unparsedFinish] at h
      | some b =>
          simp only [unparsedFinish] at h
          injection h with h1
          rw [← h1]
          exact hbest b rfl
  | cons c rest =>
      cases best with
      | none => simp [unparsedFinish] at h
      | some b =>
          simp only [unparsedFinish] at h
          exact unparsedPhase2_bound env locked used maxAllowed ntarget target
            (c :: rest) inv b pc hb (hbest b rfl) h

theorem unparsedPhase1_bound (env : ProbeEnv) (locked used : List Nat)
    (maxAllowed ntarget target : Int) :
    ∀ (n : Nat) (cards : List RawCard) (inv : PInv) (best : Option ParsedCard)
      (pc : ParsedCard),
      PBound maxAllowed inv →
      (∀ b, best = some b → b.wanters_count ≤ maxAllowed) →
      (unparsedPhase1 env locked used maxAllowed ntarget target n cards inv
        best).result = some pc →
      pc.wanters_count ≤ maxAllowed := by
  intro n
  induction n with
  | zero =>
      intro cards inv best pc hb hbest h
      exact unparsedFinish_bound env locked used maxAllowed ntarget target
        cards inv best pc hb hbest (by simpa [unparsedPhase1] using h)
  | succ m ih =>
      intro cards inv best pc hb hbest h
      cases cards with
      | nil =>
          exact unparsedFinish_bound env locked used maxAllowed ntarget target
            [] inv best pc hb hbest (by simpa [unparsedPhase1] using h)
      | cons c rest =>
          have hb2 := parse_inv_bound env locked used maxAllowed c inv hb
          rcases hres : (parse_and_cache_card env locked used maxAllowed c inv).res
            with _ | pc0
          · simp only [unparsedPhase1, hres] at h
            exact ih _ _ _ _ hb2 hbest h
          · have hpc0 := parse_some_bound env locked used maxAllowed c inv pc0 hb hres
            by_cases hle : normalize_wanters pc0.wanters_count ≤ ntarget
            · simp only [unparsedPhase1, hres, if_pos hle] at h
              injection h with h1
              rw [← h1]
              exact hpc0
            · simp only [unparsedPhase1, hres, if_neg hle] at h
              exact ih _ _ _ _ hb2
                (updateBestAlt_bound maxAllowed target best pc0 hbest hpc0) h

theorem partitionParsed_bound (locked used exclude : List Nat)
    (maxAllowed : Int) (target_rank : String) (ntarget : Int) :
    ∀ (l : List ParsedCard) (c : ParsedCard),
      (c ∈ (partitionParsed locked used exclude maxAllowed target_rank
        ntarget l).1 ∨
       c ∈ (partitionParsed locked used exclude maxAllowed target_rank
        ntarget l).2) →
      c.wanters_count ≤ maxAllowed := by
  intro l
  induction l with
  | nil =>
      intro c hc
      simp [partitionParsed] at hc
  | cons d rest ih =>
      intro c hc
      simp only [partitionParsed] at hc
      by_cases h1 : d.rank ≠ target_rank
      · rw [if_pos h1] at hc
        exact ih c hc
      · rw [if_neg h1] at hc
        by_cases h2 : exclude.contains d.instance_id = true
        · rw [if_pos h2] at hc
          exact ih c hc
        · rw [if_neg h2] at hc
          by_cases h3 : ¬ is_card_available locked used d.instance_id = true
          · rw [if_pos h3] at hc
            exact ih c hc
          · rw [if_neg h3] at hc
            by_cases h4 : maxAllowed < d.wanters_count
            · rw [if_pos h4] at hc
              exact ih c hc
            · rw [if_neg h4] at hc
              by_cases h5 : inPriority1 ntarget d = true
              · rw [if_pos h5] at hc
                rcases hc with hc | hc
                · rcases List.mem_cons.mp hc with rfl | hc1
                  · omega
                  · exact ih c (Or.inl hc1)
                · exact ih c (Or.inr hc)
              · rw [if_neg h5] at hc
                rcases hc with hc | hc
                · exact ih c (Or.inl hc)
                · rcases List.mem_cons.mp hc with rfl | hc1
                  · omega
                  · exact ih c (Or.inr hc1)

def staleCached : ParsedCard := ⟨1, "S", 100, 5⟩
def staleRaw : RawCard := ⟨10, 1, "S"⟩
def staleEnv : ProbeEnv := ⟨fun _ => -1, fun _ => true⟩

/-- C5 counterexample: with the ceiling at 70, a raw card whose type has a
still-valid cache entry of demand 100 is served from the cache by the
unprobed-first phase and returned, although its demand exceeds the ceiling —
the cache-hit path of `parse_and_cache_card` never checks the ceiling. -/
theorem ceiling_claim_counterexample :
    (select_best_card staleEnv [] [] [staleRaw] [(1, staleCached)] "S"
      150 70 40 [] 0).result = some ⟨1, "S", 100, 10⟩ ∧
    ¬ ((100 : Int) ≤ 70) := by
  constructor
  · decide
  · decide

/-- C5 amended: probed candidates that fail or exceed the ceiling are
discarded and cached entries above the ceiling are excluded from the
fallback scan; provided every entry of the loaded demand cache is at or
below the ceiling, no returned item's demand is above the ceiling.  (Without
that proviso a still-valid stale cache entry above the ceiling can be
returned by the unprobed-first phase, which skips the ceiling check on cache
hits.) -/
theorem ceiling_bound_amended (env : ProbeEnv) (locked used : List Nat)
    (inventory : List RawCard) (parsed_inventory : PInv) (target_rank : String)
    (target_wanters maxAllowed : Int) (max_attempts : Nat)
    (exclude_instances : List Nat) (choice : Nat) (pc : ParsedCard)
    (hb : PBound maxAllowed parsed_inventory)
    (h : (select_best_card env locked used inventory parsed_inventory
      target_rank target_wanters maxAllowed max_attempts exclude_instances
      choice).result = some pc) :
    pc.wanters_count ≤ maxAllowed := by
  unfold select_best_card at h
  by_cases hemp : inventory.isEmpty = true ∧ List.isEmpty parsed_inventory = true
  · rw [if_pos hemp] at h
    simp at h
  · rw [if_neg hemp] at h
    rcases hfil : filter_cards_by_rank locked used inventory target_rank
      with _ | ⟨c, cs⟩
    · rw [hfil] at h
      by_cases hpe : List.isEmpty parsed_inventory = true
      · rw [if_pos hpe] at h
        simp at h
      · rw [if_neg hpe] at h
        have h2 : select_from_parsed locked used exclude_instances maxAllowed
            parsed_inventory target_rank target_wanters choice = some pc := h
        exact partitionParsed_bound locked used exclude_instances maxAllowed
          target_rank (normalize_wanters target_wanters)
          (parsed_inventory.map Prod.snd) pc
          (select_from_parsed_mem locked used exclude_instances maxAllowed
            parsed_inventory target_rank target_wanters choice pc h2)
    · rw [hfil] at h
      simp only [] at h
      rcases hres : (select_from_unparsed env locked used maxAllowed (c :: cs)
          target_wanters parsed_inventory max_attempts).result with _ | pc0
      · rw [hres] at h
        simp only [] at h
        by_cases hie : List.isEmpty (select_from_unparsed env locked used
            maxAllowed (c :: cs) target_wanters parsed_inventory
            max_attempts).inv = true
        · rw [if_pos hie] at h
          simp at h
        · rw [if_neg hie] at h
          have h2 : select_from_parsed locked used exclude_instances maxAllowed
              (select_from_unparsed env locked used maxAllowed (c :: cs)
                target_wanters parsed_inventory max_attempts).inv
              target_rank target_wanters choice = some pc := h
          exact partitionParsed_bound locked used exclude_instances maxAllowed
            target_rank (normalize_wanters target_wanters) _ pc
            (select_from_parsed_mem locked used exclude_instances maxAllowed _
              target_rank target_wanters choice pc h2)
      · rw [hres] at h
        have h2 : some pc0 = some pc := h
        injection h2 with h3
        rw [← h3]
        exact unparsedPhase1_bound env locked used maxAllowed
          (normalize_wanters target_wanters) target_wanters max_attempts
          (c :: cs) parsed_inventory none pc0 hb
          (fun b hbx => absurd hbx (by simp)) hres

theorem ceiling_bound_amended_witness :
    (⟨1, "S", 3, 21⟩ : ParsedCard).wanters_count ≤ 70 :=
  ceiling_bound_amended exProbeEnv [] [] [exRaw3] [] "S" 10 70 40 [] 0
    ⟨1, "S", 3, 21⟩ (by intro e he; simp at he) (by decide)

/-! ## Claim C9: exclusions are ignored by the unprobed-first phase -/

theorem select_from_unparsed_nil (env : ProbeEnv) (locked used : List Nat)
    (maxAllowed target_wanters : Int) (inv : PInv) (max_attempts : Nat) :
    (select_from_unparsed env locked used maxAllowed [] target_wanters inv
      max_attempts).result = none := by
  cases max_attempts <;>
    simp [select_from_unparsed, unparsedPhase1, unparsedFinish]

/-- C9: `exclude_instances` is consulted only by the cached-inventory
fallback, so whenever the unprobed-first phase yields a card the entire
outcome of `select_best_card` is identical for any two exclusion sets; in
particular the concrete run below returns a card whose `instance_id` is a
member of `exclude_instances`. -/
theorem exclude_no_effect_unparsed :
    (∀ (env : ProbeEnv) (locked used : List Nat) (inventory : List RawCard)
      (parsed_inventory : PInv) (target_rank : String)
      (target_wanters maxAllowed : Int) (max_attempts : Nat)
      (e1 e2 : List Nat) (choice : Nat) (pc : ParsedCard),
      (select_from_unparsed env locked used maxAllowed
        (filter_cards_by_rank locked used inventory target_rank)
        target_wanters parsed_inventory max_attempts).result = some pc →
      select_best_card env locked used inventory parsed_inventory target_rank
        target_wanters maxAllowed max_attempts e1 choice =
      select_best_card env locked used inventory parsed_inventory target_rank
        target_wanters maxAllowed max_attempts e2 choice) ∧
    ((select_best_card exProbeEnv [] [] [exRaw3] [] "S" 10 70 40 [21] 0).result
        = some ⟨1, "S", 3, 21⟩ ∧ (21 : Nat) ∈ [21]) := by
  constructor
  · intro env locked used inventory pinv rank target maxA mAtt e1 e2 choice pc hres
    unfold select_best_card
    by_cases hemp : inventory.isEmpty = true ∧ List.isEmpty pinv = true
    · rw [if_pos hemp, if_pos hemp]
    · rw [if_neg hemp, if_neg hemp]
      rcases hfil : filter_cards_by_rank locked used inventory rank
        with _ | ⟨c, cs⟩
      · rw [hfil] at hres
        rw [select_from_unparsed_nil] at hres
        exact absurd hres (by simp)
      · rw [hfil] at hres
        simp only []
        rw [hres]
  · constructor
    · decide
    · decide

theorem exclude_no_effect_unparsed_witness :
    select_best_card exProbeEnv [] [] [exRaw3] [] "S" 10 70 40 [21] 0 =
    select_best_card exProbeEnv [] [] [exRaw3] [] "S" 10 70 40 [99] 0 :=
  exclude_no_effect_unparsed.1 exProbeEnv [] [] [exRaw3] [] "S" 10 70 40
    [21] [99] 0 ⟨1, "S", 3, 21⟩ (by decide)

/-! ## Orchestration loop (`main.py`, `run_processing_mode`) -/

/-- `MangaBuffApp.MAX_FAILED_CYCLES`. -/
def MAX_FAILED_CYCLES : Nat := 3

/-- The loop state carried across cycles: the consecutive-failed-cycles
counter and the current boost card. -/
structure CycleState where
  failed : Nat
  card : BoostCard
deriving DecidableEq

/-- Oracle outcomes of one pass of the `while True` body of
`run_processing_mode`: quota checks, the sleep-and-rebuild path, the
reloaded target, the two replacement sub-environments, the monitor flags,
and the number of owners processed. -/
structure CycleEnv where
  canDonate : Bool
  sleepOk : Bool
  sleepCard : Option BoostCard
  loadedCard : BoostCard
  canReplaceEsc : Bool
  forceEnv : ReplEnv
  autoEnv : ReplEnv
  canDonate2 : Bool
  total : Nat
  monitorRunning : Bool
  monitorChanged : Bool
  boostDuringWait : Bool

/-- Result of one cycle: the next loop state (`none` when the loop breaks),
how many times the forced-escalation routine was attempted, and the counter
value right after the escalation block when that block ran. -/
structure CycleOut where
  next : Option CycleState
  forcedAttempts : Nat
  escalationReset : Option Nat
deriving DecidableEq

/-- `MangaBuffApp.attempt_auto_replacement`: quota gate, then the forced
replacement; the counter reset on success is applied by the caller. -/
def attempt_auto_replacement (env : CycleEnv) (card : BoostCard) :
    Option BoostCard :=
  if ¬ env.canReplaceEsc then none
  else force_replace_card env.forceEnv card

/-- The tail of the cycle after the escalation block: the policy-gated
replacement check, the mid-cycle quota re-check, the owners pass, the
monitor restart check, the bounded wait, and the failure bookkeeping. -/
def restOfCycle (env : CycleEnv) (card : BoostCard) (failed : Nat)
    (forced : Nat) (esc : Option Nat) : CycleOut :=
  let step :=
    match perform_replacement env.autoEnv card with
    | some nc => (nc, 0)
    | none => (card, failed)
  let card1 := step.1
  let failed1 := step.2
  if ¬ env.canDonate2 then ⟨some ⟨failed1, card1⟩, forced, esc⟩
  else if env.monitorRunning && env.monitorChanged then
    ⟨some ⟨0, card1⟩, forced, esc⟩
  else if env.monitorRunning && decide (0 < env.total) then
    if env.boostDuringWait then ⟨some ⟨0, card1⟩, forced, esc⟩
    else ⟨some ⟨failed1 + 1, card1⟩, forced, esc⟩
  else if env.total = 0 then ⟨some ⟨failed1 + 1, card1⟩, forced, esc⟩
  else ⟨some ⟨failed1, card1⟩, forced, esc⟩

/-- One pass of the `while True` body of `run_processing_mode`: the donation
quota gate with the sleep-and-rebuild path, the reload of the current
target, the forced-escalation block at `MAX_FAILED_CYCLES` consecutive
failures, then the rest of the cycle. -/
def run_cycle (env : CycleEnv) (s : CycleState) : CycleOut :=
  if ¬ env.canDonate then
    if env.sleepOk then
      match env.sleepCard with
      | some c => ⟨some ⟨0, c⟩, 0, none⟩
      | none => ⟨none, 0, none⟩
    else ⟨none, 0, none⟩
  else
    let card0 := env.loadedCard
    if MAX_FAILED_CYCLES ≤ s.failed then
      match attempt_auto_replacement env card0 with
      | some nc => ⟨some ⟨0, nc⟩, 1, some 0⟩
      | none => restOfCycle env card0 0 1 (some 0)
    else restOfCycle env card0 s.failed 0 none

/-! ## Claim C7: bounded escalation -/

theorem restOfCycle_meta (env : CycleEnv) (card : BoostCard) (failed : Nat)
    (forced : Nat) (esc : Option Nat) :
    (restOfCycle env card failed forced esc).forcedAttempts = forced ∧
    (restOfCycle env card failed forced esc).escalationReset = esc := by
  unfold restOfCycle
  rcases hr : perform_replacement env.autoEnv card with _ | nc <;>
    simp only [] <;> split_ifs <;> exact ⟨rfl, rfl⟩

theorem restOfCycle_failed_le (env : CycleEnv) (card : BoostCard)
    (failed : Nat) (forced : Nat) (esc : Option Nat) :
    ∀ t, (restOfCycle env card failed forced esc).next = some t →
      t.failed ≤ failed + 1 := by
  intro t ht
  unfold restOfCycle at ht
  rcases hr : perform_replacement env.autoEnv card with _ | nc <;>
    rw [hr] at ht <;> simp only [] at ht <;> split_ifs at ht <;>
    (injection ht with h1) <;> rw [← h1] <;> simp only [] <;> omega

/-- C7: in any cycle that starts with the failure counter at or above the
threshold of 3 and proceeds past the quota gate, the forced-replacement
routine is attempted exactly once, and immediately after the escalation
block the counter is zero in every outcome (replacement succeeded, quota
exhausted, no-op); whatever the cycle's outcome, the next cycle never starts
with the counter at or above 3 again. -/
theorem escalation_resets_counter (env : CycleEnv) (s : CycleState)
    (h : MAX_FAILED_CYCLES ≤ s.failed) :
    (env.canDonate = true →
      (run_cycle env s).forcedAttempts = 1 ∧
      (run_cycle env s).escalationReset = some 0) ∧
    (∀ t, (run_cycle env s).next = some t → t.failed < MAX_FAILED_CYCLES) := by
  constructor
  · intro hd
    unfold run_cycle
    rw [if_neg (fun hc => hc hd), if_pos h]
    rcases hforce : attempt_auto_replacement env env.loadedCard with _ | nc
    · exact restOfCycle_meta env env.loadedCard 0 1 (some 0)
    · exact ⟨rfl, rfl⟩
  · intro t ht
    unfold run_cycle at ht
    by_cases hd : env.canDonate = true
    · rw [if_neg (fun hc => hc hd), if_pos h] at ht
      rcases hforce : attempt_auto_replacement env env.loadedCard with _ | nc <;>
        rw [hforce] at ht <;> simp only [] at ht
      · have hle := restOfCycle_failed_le env env.loadedCard 0 1 (some 0) t ht
        simp only [MAX_FAILED_CYCLES]
        omega
      · have h2 : some (CycleState.mk 0 nc) = some t := ht
        injection h2 with h3
        rw [← h3]
        simp [MAX_FAILED_CYCLES]
    · rw [if_pos hd] at ht
      split_ifs at ht with hs
      · rcases hsc : env.sleepCard with _ | c <;> rw [hsc] at ht <;>
          simp only [] at ht
        · simp at ht
        · have h2 : some (CycleState.mk 0 c) = some t := ht
          injection h2 with h3
          rw [← h3]
          simp [MAX_FAILED_CYCLES]

theorem escalation_resets_counter_witness :
    (run_cycle ⟨true, true, none, ⟨7, 200, 10⟩, false, ⟨true, true, true, none⟩,
        ⟨true, true, true, none⟩, true, 0, false, false, false⟩
      ⟨3, ⟨7, 200, 10⟩⟩).forcedAttempts = 1 :=
  (escalation_resets_counter _ ⟨3, ⟨7, 200, 10⟩⟩ (by decide)).1 rfl |>.1

end MangaBuff
